import Mathlib

/-!
Shallow embedding of the two notebooks in this repository:
`collaborative_filtering_movielens.ipynb` (an embedding dot-product
recommender) and `bidirectional_lstm_imdb.ipynb` (a bidirectional LSTM
sentiment model), together with theorems settling the specification
claims about them.  Machine floats are modelled by real numbers; the
framework primitives the notebooks call (`tf.nn.sigmoid`, `tf.tensordot`,
`BinaryCrossentropy`, `Embedding`, `LSTM`, `Dense`, `argsort`) are
embedded by their standard mathematical definitions.
-/

namespace TF

/-- `tf.nn.sigmoid`: the logistic function 1 / (1 + e^{-x}). -/
noncomputable def sigmoid (x : ℝ) : ℝ := 1 / (1 + Real.exp (-x))

/-- The model state of `RecommenderNet.__init__`: a user embedding table of
shape `num_users × embedding_size`, a user bias table of shape `num_users × 1`,
and likewise for movies. -/
structure RecommenderNet where
  numUsers : ℕ
  numMovies : ℕ
  embeddingSize : ℕ
  user_embedding : Fin numUsers → Fin embeddingSize → ℝ
  user_bias : Fin numUsers → ℝ
  movie_embedding : Fin numMovies → Fin embeddingSize → ℝ
  movie_bias : Fin numMovies → ℝ

/-- `RecommenderNet.call` on a batch of `(user, movie)` index pairs.
Mirrors the source: `user_vector = user_embedding(inputs[:, 0])` etc.,
`dot_user_movie = tf.tensordot(user_vector, movie_vector, 2)` (which for the
`(batch, emb) × (batch, emb)` tensors contracts both axes, i.e. sums the
per-row dot products over the whole batch into one scalar), then
`x = dot_user_movie + user_bias + movie_bias` (broadcast) and
`tf.nn.sigmoid(x)`. -/
noncomputable def RecommenderNet.callBatch (net : RecommenderNet)
    (inputs : List (Fin net.numUsers × Fin net.numMovies)) : List ℝ :=
  let dot_user_movie : ℝ :=
    (inputs.map (fun p => ∑ i, net.user_embedding p.1 i * net.movie_embedding p.2 i)).sum
  inputs.map (fun p => sigmoid (dot_user_movie + net.user_bias p.1 + net.movie_bias p.2))

/-- Forward evaluation on a single `(user, movie)` pair: `call` applied to a
batch containing only that pair. -/
noncomputable def RecommenderNet.call (net : RecommenderNet)
    (input : Fin net.numUsers × Fin net.numMovies) : ℝ :=
  (net.callBatch [input]).headD 0

/-- The forward pass together with the model state it leaves behind.  The
body of the Python `call` method only reads the four tables, so the state
returned is the state passed in. -/
noncomputable def RecommenderNet.callTrace (net : RecommenderNet)
    (input : Fin net.numUsers × Fin net.numMovies) : ℝ × RecommenderNet :=
  (net.call input, net)

lemma RecommenderNet.call_def (net : RecommenderNet)
    (u : Fin net.numUsers) (m : Fin net.numMovies) :
    net.call (u, m) =
      sigmoid ((∑ i, net.user_embedding u i * net.movie_embedding m i)
        + net.user_bias u + net.movie_bias m) := by
  simp [RecommenderNet.call, RecommenderNet.callBatch]

lemma sigmoid_pos (x : ℝ) : 0 < sigmoid x := by
  unfold sigmoid
  positivity

lemma sigmoid_lt_one (x : ℝ) : sigmoid x < 1 := by
  unfold sigmoid
  rw [div_lt_one (by positivity)]
  linarith [Real.exp_pos (-x)]

/-- C1: for every user index `u` and movie index `m`, the forward evaluation
`RecommenderNet.call` on the single input `(u, m)` returns exactly
`sigmoid(user_vec[u] · movie_vec[m] + user_bias[u] + movie_bias[m])`, and the
evaluation leaves the four tables unchanged. -/
theorem recommender_call_spec (net : RecommenderNet)
    (u : Fin net.numUsers) (m : Fin net.numMovies) :
    net.call (u, m) =
      sigmoid ((∑ i, net.user_embedding u i * net.movie_embedding m i)
        + net.user_bias u + net.movie_bias m) ∧
    (net.callTrace (u, m)).2 = net :=
  ⟨net.call_def u m, rfl⟩

/-- C4: for every model state and all valid indices, the match score lies
strictly between 0 and 1. -/
theorem score_in_unit_interval (net : RecommenderNet)
    (u : Fin net.numUsers) (m : Fin net.numMovies) :
    0 < net.call (u, m) ∧ net.call (u, m) < 1 := by
  rw [net.call_def u m]
  exact ⟨sigmoid_pos _, sigmoid_lt_one _⟩

/-- The model state with both embedding tables and both bias tables permuted:
row `π u` of the permuted table is row `u` of the original one, the same
permutation acting on a table and its bias table. -/
noncomputable def RecommenderNet.permute (net : RecommenderNet)
    (pu : Equiv.Perm (Fin net.numUsers)) (pm : Equiv.Perm (Fin net.numMovies)) :
    RecommenderNet :=
  ⟨net.numUsers, net.numMovies, net.embeddingSize,
    fun i => net.user_embedding (pu.symm i), fun i => net.user_bias (pu.symm i),
    fun j => net.movie_embedding (pm.symm j), fun j => net.movie_bias (pm.symm j)⟩

/-- C5: the score computed from the permuted tables at the permuted indices
equals the score computed from the original tables: the score depends only on
which vectors and biases are selected, not on table storage order. -/
theorem score_permutation_invariant (net : RecommenderNet)
    (pu : Equiv.Perm (Fin net.numUsers)) (pm : Equiv.Perm (Fin net.numMovies))
    (u : Fin net.numUsers) (m : Fin net.numMovies) :
    (net.permute pu pm).call (pu u, pm m) = net.call (u, m) := by
  rw [RecommenderNet.call_def, RecommenderNet.call_def]
  simp [RecommenderNet.permute]

/-- C6: if the selected user vector and movie vector are both zero and both
selected biases are zero, the score is exactly 1/2. -/
theorem score_zero_tables (net : RecommenderNet)
    (u : Fin net.numUsers) (m : Fin net.numMovies)
    (hu : ∀ i, net.user_embedding u i = 0)
    (_hm : ∀ i, net.movie_embedding m i = 0)
    (hb1 : net.user_bias u = 0) (hb2 : net.movie_bias m = 0) :
    net.call (u, m) = 1 / 2 := by
  rw [net.call_def u m]
  simp only [hu, hb1, hb2, zero_mul, Finset.sum_const_zero, add_zero]
  rw [sigmoid]
  norm_num

/-- A 1-user, 1-movie model whose tables are all zero. -/
def zeroNet : RecommenderNet :=
  ⟨1, 1, 1, fun _ _ => 0, fun _ => 0, fun _ _ => 0, fun _ => 0⟩

/-- Witness for C6 at a concrete all-zero model. -/
theorem score_zero_tables_witness : zeroNet.call (⟨0, Nat.one_pos⟩, ⟨0, Nat.one_pos⟩) = 1 / 2 :=
  score_zero_tables zeroNet _ _ (fun _ => rfl) (fun _ => rfl) rfl rfl

/-- The worked example model of the spec: embedding size 1,
`user_vec[0] = [2.0]`, `movie_vec[0] = [1.5]`, both biases 0. -/
noncomputable def exampleNet : RecommenderNet :=
  ⟨1, 1, 1, fun _ _ => 2, fun _ => 0, fun _ _ => 3 / 2, fun _ => 0⟩

lemma exp_three_eq : Real.exp 3 = Real.exp 1 ^ 3 := by
  rw [← Real.exp_nat_mul]
  norm_num

lemma exp_three_gt : (20.0855 : ℝ) < Real.exp 3 := by
  rw [exp_three_eq]
  calc (20.0855 : ℝ) < 2.7182818283 ^ 3 := by norm_num
    _ < Real.exp 1 ^ 3 :=
      pow_lt_pow_left₀ Real.exp_one_gt_d9 (by norm_num) (by norm_num)

lemma exp_three_lt : Real.exp 3 < 20.0856 := by
  rw [exp_three_eq]
  calc Real.exp 1 ^ 3 < 2.7182818286 ^ 3 :=
      pow_lt_pow_left₀ Real.exp_one_lt_d9 (Real.exp_pos 1).le (by norm_num)
    _ < 20.0856 := by norm_num

lemma sigmoid_three_bounds : (0.9525 : ℝ) < sigmoid 3 ∧ sigmoid 3 < 0.9527 := by
  have hpos : (0 : ℝ) < Real.exp 3 := Real.exp_pos 3
  unfold sigmoid
  rw [Real.exp_neg]
  constructor
  · have h1 : (Real.exp 3)⁻¹ < (20.0855 : ℝ)⁻¹ :=
      inv_strictAnti₀ (by norm_num) exp_three_gt
    have h3 : 1 / (1 + (20.0855 : ℝ)⁻¹) < 1 / (1 + (Real.exp 3)⁻¹) :=
      one_div_lt_one_div_of_lt (by positivity) (by linarith)
    calc (0.9525 : ℝ) < 1 / (1 + (20.0855 : ℝ)⁻¹) := by norm_num
      _ < _ := h3
  · have h1 : (20.0856 : ℝ)⁻¹ < (Real.exp 3)⁻¹ :=
      inv_strictAnti₀ hpos exp_three_lt
    have h3 : 1 / (1 + (Real.exp 3)⁻¹) < 1 / (1 + (20.0856 : ℝ)⁻¹) :=
      one_div_lt_one_div_of_lt (by positivity) (by linarith)
    calc 1 / (1 + (Real.exp 3)⁻¹) < 1 / (1 + (20.0856 : ℝ)⁻¹) := h3
      _ < 0.9527 := by norm_num

/-- C9: with embedding size 1, `user_vec[0] = [2.0]`, `movie_vec[0] = [1.5]`
and both biases zero, the match score at `(0, 0)` is `sigmoid 3`, which lies
between 0.9525 and 0.9527 (≈ 0.9526). -/
theorem example_score_sigmoid_three :
    exampleNet.call (⟨0, Nat.one_pos⟩, ⟨0, Nat.one_pos⟩) = sigmoid 3 ∧
    (0.9525 : ℝ) < sigmoid 3 ∧ sigmoid 3 < 0.9527 := by
  refine ⟨?_, sigmoid_three_bounds⟩
  rw [RecommenderNet.call_def]
  have hs : (∑ i, exampleNet.user_embedding ⟨0, Nat.one_pos⟩ i *
      exampleNet.movie_embedding ⟨0, Nat.one_pos⟩ i) = 3 := by
    show (∑ _i : Fin 1, (2 : ℝ) * (3 / 2)) = 3
    simp
    norm_num
  rw [hs]
  show sigmoid (3 + 0 + 0) = sigmoid 3
  norm_num

/-! Rating normalization (Stage B):
`y = df["rating"].apply(lambda x: (x - min_rating) / (max_rating - min_rating))`
with `min_rating = min(df["rating"])` and `max_rating = max(df["rating"])`.
The float ratings are modelled by rationals. -/

/-- `min(df["rating"])`: the minimum of a nonempty list of ratings. -/
def min_rating : List ℚ → ℚ
  | [] => 0
  | x :: xs => xs.foldl min x

/-- `max(df["rating"])`: the maximum of a nonempty list of ratings. -/
def max_rating : List ℚ → ℚ
  | [] => 0
  | x :: xs => xs.foldl max x

/-- The normalization lambda applied to each rating. -/
def normalizeRating (minR maxR r : ℚ) : ℚ := (r - minR) / (maxR - minR)

lemma foldl_min_le_init (xs : List ℚ) (a : ℚ) : xs.foldl min a ≤ a := by
  induction xs generalizing a with
  | nil => simp
  | cons x xs ih => exact le_trans (ih (min a x)) (min_le_left a x)

lemma foldl_min_le_mem (xs : List ℚ) (a r : ℚ) (hr : r ∈ xs) : xs.foldl min a ≤ r := by
  induction xs generalizing a with
  | nil => cases hr
  | cons x xs ih =>
    rcases List.mem_cons.mp hr with h | h
    · subst h
      exact le_trans (foldl_min_le_init xs (min a r)) (min_le_right a r)
    · exact ih (min a x) h

lemma init_le_foldl_max (xs : List ℚ) (a : ℚ) : a ≤ xs.foldl max a := by
  induction xs generalizing a with
  | nil => simp
  | cons x xs ih => exact le_trans (le_max_left a x) (ih (max a x))

lemma mem_le_foldl_max (xs : List ℚ) (a r : ℚ) (hr : r ∈ xs) : r ≤ xs.foldl max a := by
  induction xs generalizing a with
  | nil => cases hr
  | cons x xs ih =>
    rcases List.mem_cons.mp hr with h | h
    · subst h
      exact le_trans (le_max_right a r) (init_le_foldl_max xs (max a r))
    · exact ih (max a x) h

lemma min_rating_le (ratings : List ℚ) (r : ℚ) (hr : r ∈ ratings) :
    min_rating ratings ≤ r := by
  cases ratings with
  | nil => cases hr
  | cons x xs =>
    rcases List.mem_cons.mp hr with h | h
    · subst h
      exact foldl_min_le_init xs r
    · exact foldl_min_le_mem xs x r h

lemma le_max_rating (ratings : List ℚ) (r : ℚ) (hr : r ∈ ratings) :
    r ≤ max_rating ratings := by
  cases ratings with
  | nil => cases hr
  | cons x xs =>
    rcases List.mem_cons.mp hr with h | h
    · subst h
      exact init_le_foldl_max xs r
    · exact mem_le_foldl_max xs x r h

/-- C8: when the minimum rating is strictly below the maximum, every rating's
normalized value `(r - min) / (max - min)` lies in `[0, 1]`. -/
theorem normalized_rating_in_unit (ratings : List ℚ) (r : ℚ) (hr : r ∈ ratings)
    (hlt : min_rating ratings < max_rating ratings) :
    0 ≤ normalizeRating (min_rating ratings) (max_rating ratings) r ∧
      normalizeRating (min_rating ratings) (max_rating ratings) r ≤ 1 := by
  have h1 : min_rating ratings ≤ r := min_rating_le ratings r hr
  have h2 : r ≤ max_rating ratings := le_max_rating ratings r hr
  unfold normalizeRating
  constructor
  · exact div_nonneg (by linarith) (by linarith)
  · rw [div_le_one (by linarith)]
    linarith

/-- Witness for C8 on the concrete rating list `[4, 1/2, 5]` at `r = 4`. -/
theorem normalized_rating_in_unit_witness :
    0 ≤ normalizeRating (min_rating [4, 1/2, 5]) (max_rating [4, 1/2, 5]) 4 ∧
      normalizeRating (min_rating [4, 1/2, 5]) (max_rating [4, 1/2, 5]) 4 ≤ 1 :=
  normalized_rating_in_unit [4, 1/2, 5] 4 (by simp)
    (by norm_num [min_rating, max_rating])

/-! Candidate construction for the recommendation stage:
`movies_not_watched` filters the movie table's ids down to those the user has
not rated, then intersects with the keys of `movie2movie_encoded` (the
distinct movie ids of the ratings table, encoded by enumeration order). -/

/-- The candidate movie ids: movie-table ids not rated by the user,
intersected with the ids known to the encoder. -/
def movies_not_watched (movieDfIds watched movieIds : List ℕ) : List ℕ :=
  (movieDfIds.filter (fun x => x ∉ watched)).filter (fun x => x ∈ movieIds)

/-- `movie2movie_encoded = {x: i for i, x in enumerate(movie_ids)}`: the dense
index of a movie id is its position in the distinct-id list. -/
def movie2movie_encoded (movieIds : List ℕ) (x : ℕ) : ℕ := movieIds.indexOf x

/-- C10: every candidate movie id is not among the user's rated movies, is a
key of `movie2movie_encoded`, and its dense index is a valid row index
(below the number of encoded movies). -/
theorem candidates_unwatched_and_encoded (movieDfIds watched movieIds : List ℕ)
    (x : ℕ) (hx : x ∈ movies_not_watched movieDfIds watched movieIds) :
    x ∉ watched ∧ x ∈ movieIds ∧ movie2movie_encoded movieIds x < movieIds.length := by
  unfold movies_not_watched at hx
  simp only [List.mem_filter, decide_eq_true_eq] at hx
  exact ⟨hx.1.2, hx.2, List.indexOf_lt_length.mpr hx.2⟩

/-- Witness for C10 on concrete id lists. -/
theorem candidates_unwatched_and_encoded_witness :
    10 ∉ [20] ∧ 10 ∈ [10, 20] ∧
      movie2movie_encoded [10, 20] 10 < ([10, 20] : List ℕ).length :=
  candidates_unwatched_and_encoded [10, 20, 30] [20] [10, 20] 10 (by decide)

/-! The recommendation stage (Stage E):
`ratings = model.predict(user_movie_array).flatten()`,
`top_ratings_indices = ratings.argsort()[-10:][::-1]`, and the top indices
are mapped back through the candidate list. -/

/-- `numpy.argsort`: the indices `0, …, n-1` of the score list arranged so
that the corresponding scores are ascending. -/
noncomputable def argsort (l : List ℝ) : List ℕ :=
  List.insertionSort (fun i j => l.getD i 0 ≤ l.getD j 0) (List.range l.length)

/-- `ratings.argsort()[-10:][::-1]`: the last ten indices of the ascending
order, reversed, i.e. the indices of the ten largest scores, best first. -/
noncomputable def top_ratings_indices (ratings : List ℝ) : List ℕ :=
  ((argsort ratings).drop ((argsort ratings).length - 10)).reverse

/-- The scoring-and-ranking pipeline: score every candidate movie for the
user in one batch, rank by score, return the ten recommended movies. -/
noncomputable def recommend (net : RecommenderNet) (u : Fin net.numUsers)
    (candidates : List (Fin net.numMovies)) : List (Fin net.numMovies) :=
  let ratings := net.callBatch (candidates.map (fun m => (u, m)))
  (top_ratings_indices ratings).filterMap (fun i => candidates[i]?)

/-- C7: the recommendation stage is deterministic.  Two runs on the same
trained parameter set and equal candidate lists return the same recommended
list; moreover the ranking is fully determined by the scores: `argsort`
arranges all candidate indices (a permutation of them) so that the scores
are ascending, leaving no random tie-breaking. -/
theorem ranking_deterministic (net : RecommenderNet) (u : Fin net.numUsers)
    (cands cands2 : List (Fin net.numMovies)) (h : cands = cands2) :
    recommend net u cands = recommend net u cands2 ∧
    List.Sorted
      (fun i j => (net.callBatch (cands.map (fun m => (u, m)))).getD i 0 ≤
        (net.callBatch (cands.map (fun m => (u, m)))).getD j 0)
      (argsort (net.callBatch (cands.map (fun m => (u, m))))) ∧
    List.Perm (argsort (net.callBatch (cands.map (fun m => (u, m)))))
      (List.range (net.callBatch (cands.map (fun m => (u, m)))).length) := by
  subst h
  refine ⟨rfl, ?_, ?_⟩
  · unfold argsort
    haveI : IsTotal ℕ
        (fun i j => (net.callBatch (cands.map (fun m => (u, m)))).getD i 0 ≤
          (net.callBatch (cands.map (fun m => (u, m)))).getD j 0) :=
      ⟨fun _ _ => le_total _ _⟩
    haveI : IsTrans ℕ
        (fun i j => (net.callBatch (cands.map (fun m => (u, m)))).getD i 0 ≤
          (net.callBatch (cands.map (fun m => (u, m)))).getD j 0) :=
      ⟨fun _ _ _ hab hbc => le_trans hab hbc⟩
    exact List.sorted_insertionSort _ _
  · unfold argsort
    exact List.perm_insertionSort _ _

/-- Witness for C7 at the all-zero model with a single candidate movie. -/
theorem ranking_deterministic_witness :
    recommend zeroNet ⟨0, Nat.one_pos⟩ [⟨0, Nat.one_pos⟩] =
      recommend zeroNet ⟨0, Nat.one_pos⟩ [⟨0, Nat.one_pos⟩] ∧
    List.Sorted
      (fun i j =>
        (zeroNet.callBatch (([⟨0, Nat.one_pos⟩] : List (Fin zeroNet.numMovies)).map
          (fun m => (⟨0, Nat.one_pos⟩, m)))).getD i 0 ≤
        (zeroNet.callBatch (([⟨0, Nat.one_pos⟩] : List (Fin zeroNet.numMovies)).map
          (fun m => (⟨0, Nat.one_pos⟩, m)))).getD j 0)
      (argsort (zeroNet.callBatch (([⟨0, Nat.one_pos⟩] : List (Fin zeroNet.numMovies)).map
        (fun m => (⟨0, Nat.one_pos⟩, m))))) ∧
    List.Perm
      (argsort (zeroNet.callBatch (([⟨0, Nat.one_pos⟩] : List (Fin zeroNet.numMovies)).map
        (fun m => (⟨0, Nat.one_pos⟩, m)))))
      (List.range (zeroNet.callBatch (([⟨0, Nat.one_pos⟩] : List (Fin zeroNet.numMovies)).map
        (fun m => (⟨0, Nat.one_pos⟩, m)))).length) :=
  ranking_deterministic zeroNet ⟨0, Nat.one_pos⟩ [⟨0, Nat.one_pos⟩] [⟨0, Nat.one_pos⟩] rfl

/-! The training objective: `model.compile(loss=tf.keras.losses.BinaryCrossentropy(), ...)`.
On a single example with prediction `p` and target `t` the loss is
`-(t·log p + (1−t)·log(1−p))`. -/

/-- Binary cross-entropy on a single example: prediction `p`, target `t`. -/
noncomputable def bce (p t : ℝ) : ℝ :=
  -(t * Real.log p + (1 - t) * Real.log (1 - p))

lemma bce_hasDerivAt (t p : ℝ) (hp0 : 0 < p) (hp1 : p < 1) :
    HasDerivAt (fun q => bce q t) ((p - t) / (p * (1 - p))) p := by
  have hp : p ≠ 0 := hp0.ne'
  have h1p : (1 : ℝ) - p ≠ 0 := by linarith
  have h1 : HasDerivAt (fun q : ℝ => Real.log q) p⁻¹ p := Real.hasDerivAt_log hp
  have h2 : HasDerivAt (fun q : ℝ => 1 - q) (-1) p := by
    simpa using (hasDerivAt_const p (1 : ℝ)).sub (hasDerivAt_id p)
  have h3 : HasDerivAt (fun q : ℝ => Real.log (1 - q)) ((1 - p)⁻¹ * -1) p := by
    have hc := (Real.hasDerivAt_log h1p).comp p h2
    simpa [Function.comp] using hc
  have h4 := ((h1.const_mul t).add (h3.const_mul (1 - t))).neg
  convert h4 using 1
  field_simp
  ring

lemma bce_continuousAt (t p : ℝ) (hp0 : 0 < p) (hp1 : p < 1) :
    ContinuousAt (fun q => bce q t) p :=
  (bce_hasDerivAt t p hp0 hp1).continuousAt

/-- C3 counterexample: for the interior target `t = 1/2`, the loss does not
tend to 0 as the prediction tends to the target; its limit is `log 2 > 0`. -/
theorem bce_limit_not_zero :
    ¬ Filter.Tendsto (fun p => bce p (1 / 2)) (nhds (1 / 2)) (nhds 0) := by
  intro hcontra
  have hcont := (bce_continuousAt (1 / 2) (1 / 2) (by norm_num) (by norm_num)).tendsto
  have huniq : (0 : ℝ) = bce (1 / 2) (1 / 2) := tendsto_nhds_unique hcontra hcont
  have hval : bce (1 / 2) (1 / 2) = Real.log 2 := by
    unfold bce
    rw [show (1 : ℝ) - 1 / 2 = 1 / 2 by norm_num,
      show (1 : ℝ) / 2 = 2⁻¹ by norm_num, Real.log_inv]
    ring
  have hpos : (0 : ℝ) < Real.log 2 := Real.log_pos (by norm_num)
  rw [hval] at huniq
  linarith

/-- C3 (amended): for a target `t` strictly inside `(0,1)` the loss is
strictly decreasing in `p` on `(0, t]` and strictly increasing on `[t, 1)` —
so it strictly increases with `|p − t|` on each side of the target — and as
`p → t` it tends to `bce t t` (the entropy of `t`), not to 0; the limit is 0
exactly in the extremal-target cases `t = 1` (as `p → 1`) and `t = 0`
(as `p → 0`). -/
theorem bce_sided_monotone (t : ℝ) (ht0 : 0 < t) (ht1 : t < 1) :
    StrictAntiOn (fun p => bce p t) (Set.Ioc 0 t) ∧
    StrictMonoOn (fun p => bce p t) (Set.Ico t 1) ∧
    Filter.Tendsto (fun p => bce p t) (nhds t) (nhds (bce t t)) ∧
    Filter.Tendsto (fun p => bce p 1) (nhds 1) (nhds 0) ∧
    Filter.Tendsto (fun p => bce p 0) (nhds 0) (nhds 0) := by
  refine ⟨?_, ?_, ?_, ?_, ?_⟩
  · apply strictAntiOn_of_deriv_neg (convex_Ioc 0 t)
    · intro p hp
      exact (bce_continuousAt t p hp.1 (lt_of_le_of_lt hp.2 ht1)).continuousWithinAt
    · intro p hp
      rw [interior_Ioc] at hp
      rw [(bce_hasDerivAt t p hp.1 (lt_trans hp.2 ht1)).deriv]
      apply div_neg_of_neg_of_pos
      · linarith [hp.2]
      · have h1 : 0 < p := hp.1
        have h2 : p < 1 := lt_trans hp.2 ht1
        nlinarith
  · apply strictMonoOn_of_deriv_pos (convex_Ico t 1)
    · intro p hp
      exact (bce_continuousAt t p (lt_of_lt_of_le ht0 hp.1) hp.2).continuousWithinAt
    · intro p hp
      rw [interior_Ico] at hp
      rw [(bce_hasDerivAt t p (lt_trans ht0 hp.1) hp.2).deriv]
      apply div_pos
      · linarith [hp.1]
      · have h1 : 0 < p := lt_trans ht0 hp.1
        have h2 : p < 1 := hp.2
        nlinarith
  · exact (bce_continuousAt t t ht0 ht1).tendsto
  · have hfun : (fun p : ℝ => bce p 1) = fun p => -Real.log p := by
      funext p
      simp [bce]
    rw [hfun]
    have hc : ContinuousAt (fun p : ℝ => -Real.log p) 1 :=
      (Real.continuousAt_log (by norm_num)).neg
    have := hc.tendsto
    simpa using this
  · have hfun : (fun p : ℝ => bce p 0) = fun p => -Real.log (1 - p) := by
      funext p
      simp [bce]
    rw [hfun]
    have h2 : ContinuousAt (fun q : ℝ => 1 - q) 0 :=
      continuousAt_const.sub continuousAt_id
    have hc : ContinuousAt (fun p : ℝ => -Real.log (1 - p)) 0 := by
      have hl := (Real.continuousAt_log (x := (1 : ℝ) - 0) (by norm_num)).comp h2
      exact hl.neg
    have := hc.tendsto
    simpa using this

/-- Witness for C3 at the concrete target `t = 1/2`. -/
theorem bce_sided_monotone_witness :
    StrictAntiOn (fun p => bce p (1 / 2)) (Set.Ioc 0 (1 / 2)) ∧
    StrictMonoOn (fun p => bce p (1 / 2)) (Set.Ico (1 / 2) 1) ∧
    Filter.Tendsto (fun p => bce p (1 / 2)) (nhds (1 / 2)) (nhds (bce (1 / 2) (1 / 2))) ∧
    Filter.Tendsto (fun p => bce p 1) (nhds 1) (nhds 0) ∧
    Filter.Tendsto (fun p => bce p 0) (nhds 0) (nhds 0) :=
  bce_sided_monotone (1 / 2) (by norm_num) (by norm_num)

/-! The sentiment notebook `bidirectional_lstm_imdb.ipynb`:
`Embedding(max_features, 128)` → `Bidirectional(LSTM(64, return_sequences=True))`
→ `Dense(64, activation="linear")` → `Dense(1, activation="sigmoid")`,
with inputs padded/truncated to `maxlen = 200` by
`keras.preprocessing.sequence.pad_sequences`.  Vectors are lists of reals,
matrices lists of rows. -/

/-- `maxlen = 200`: only the first 200 words of each review are considered. -/
def maxlen : ℕ := 200

/-- `keras.preprocessing.sequence.pad_sequences` with the defaults used in the
source: truncate to the last `n` tokens and left-pad with zeros up to `n`. -/
def pad_sequences (n : ℕ) (s : List ℕ) : List ℕ :=
  List.replicate (n - s.length) 0 ++ s.drop (s.length - n)

lemma pad_sequences_length (n : ℕ) (s : List ℕ) : (pad_sequences n s).length = n := by
  simp [pad_sequences]
  omega

def matVec (m : List (List ℝ)) (v : List ℝ) : List ℝ :=
  m.map (fun row => (List.zipWith (fun a b => a * b) row v).sum)

def vadd (a b : List ℝ) : List ℝ := List.zipWith (fun x y => x + y) a b

def vmul (a b : List ℝ) : List ℝ := List.zipWith (fun x y => x * y) a b

/-- The weights of one LSTM layer: input kernels, recurrent kernels and
biases for the input, forget, cell and output gates. -/
structure LSTMParams where
  wi : List (List ℝ)
  wf : List (List ℝ)
  wc : List (List ℝ)
  wo : List (List ℝ)
  ui : List (List ℝ)
  uf : List (List ℝ)
  uc : List (List ℝ)
  uo : List (List ℝ)
  bi : List ℝ
  bf : List ℝ
  bc : List ℝ
  bo : List ℝ

/-- One step of the standard LSTM recurrence: gate activations from the
current input `x` and previous hidden state `h`, new cell state from the
forget and input gates, new hidden state from the output gate. -/
noncomputable def lstmCell (p : LSTMParams) (x h c : List ℝ) : List ℝ × List ℝ :=
  let i := (vadd (vadd (matVec p.wi x) (matVec p.ui h)) p.bi).map sigmoid
  let f := (vadd (vadd (matVec p.wf x) (matVec p.uf h)) p.bf).map sigmoid
  let g := (vadd (vadd (matVec p.wc x) (matVec p.uc h)) p.bc).map Real.tanh
  let o := (vadd (vadd (matVec p.wo x) (matVec p.uo h)) p.bo).map sigmoid
  let cNew := vadd (vmul f c) (vmul i g)
  (vmul o (cNew.map Real.tanh), cNew)

/-- `LSTM(…, return_sequences=True)`: scan the cell over the sequence,
collecting the hidden state at every timestep. -/
noncomputable def lstmSeq (p : LSTMParams) : List ℝ → List ℝ → List (List ℝ) → List (List ℝ)
  | _, _, [] => []
  | h, c, x :: xs =>
    (lstmCell p x h c).1 :: lstmSeq p (lstmCell p x h c).1 (lstmCell p x h c).2 xs

/-- `Bidirectional`: run one LSTM forward and one over the reversed sequence,
realign the backward outputs, and concatenate the two per timestep. -/
noncomputable def bidirectional (pf pb : LSTMParams) (h0 c0 : List ℝ)
    (xs : List (List ℝ)) : List (List ℝ) :=
  List.zipWith (fun a b => a ++ b) (lstmSeq pf h0 c0 xs)
    ((lstmSeq pb h0 c0 xs.reverse).reverse)

/-- A `Dense` layer with linear activation: affine map per vector. -/
noncomputable def denseLayer (w : List (List ℝ)) (b : List ℝ) (v : List ℝ) : List ℝ :=
  vadd (matVec w v) b

/-- The sentiment model's parameters: token-embedding table, forward and
backward LSTM weights, initial states, the `Dense(64, "linear")` weights and
the final `Dense(1, "sigmoid")` weight vector and bias. -/
structure SentimentModel where
  embed : ℕ → List ℝ
  fwd : LSTMParams
  bwd : LSTMParams
  h0 : List ℝ
  c0 : List ℝ
  w1 : List (List ℝ)
  b1 : List ℝ
  w2 : List ℝ
  b2 : ℝ

/-- The forward pass declared in the source: token-embedding lookup, one
bidirectional LSTM with `return_sequences=True`, a linear dense layer applied
per timestep, and a one-unit sigmoid dense layer applied per timestep. -/
noncomputable def SentimentModel.forward (m : SentimentModel) (tokens : List ℕ) : List ℝ :=
  let e := tokens.map m.embed
  let r := bidirectional m.fwd m.bwd m.h0 m.c0 e
  let d := r.map (denseLayer m.w1 m.b1)
  d.map (fun v => sigmoid ((List.zipWith (fun a b => a * b) m.w2 v).sum + m.b2))

lemma lstmSeq_length (p : LSTMParams) :
    ∀ (xs : List (List ℝ)) (h c : List ℝ), (lstmSeq p h c xs).length = xs.length
  | [], _, _ => rfl
  | x :: xs, h, c => by
    simp [lstmSeq, lstmSeq_length p xs]

lemma bidirectional_length (pf pb : LSTMParams) (h0 c0 : List ℝ)
    (xs : List (List ℝ)) : (bidirectional pf pb h0 c0 xs).length = xs.length := by
  simp [bidirectional, lstmSeq_length]

lemma forward_length (m : SentimentModel) (tokens : List ℕ) :
    (m.forward tokens).length = tokens.length := by
  simp [SentimentModel.forward, bidirectional_length]

lemma forward_mem_unit (m : SentimentModel) (tokens : List ℕ) (p : ℝ)
    (hp : p ∈ m.forward tokens) : 0 < p ∧ p < 1 := by
  unfold SentimentModel.forward at hp
  simp only [List.mem_map] at hp
  obtain ⟨v, _, rfl⟩ := hp
  exact ⟨sigmoid_pos _, sigmoid_lt_one _⟩

/-- A concrete sentiment model with empty weight lists. -/
def zeroLSTM : LSTMParams := ⟨[], [], [], [], [], [], [], [], [], [], [], []⟩

/-- A concrete sentiment model whose tables are all empty or zero. -/
def zeroSentiment : SentimentModel :=
  ⟨fun _ => [], zeroLSTM, zeroLSTM, [], [], [], [], [], 0⟩

/-- C2 counterexample: on a padded input of the fixed length 200 the model's
output is a sequence of 200 values, not a single scalar. -/
theorem sentiment_output_not_scalar :
    (zeroSentiment.forward (pad_sequences maxlen [])).length ≠ 1 := by
  rw [forward_length, pad_sequences_length]
  decide

/-- C2 (amended): on any input padded/truncated to the fixed length 200, the
model returns one scalar probability per timestep — a sequence of exactly 200
values, each strictly between 0 and 1 — via token-embedding lookup,
bidirectional recurrent encoding with per-timestep concatenated outputs, a
dense projection and a logistic output, all applied per timestep. -/
theorem sentiment_forward_per_timestep (m : SentimentModel) (raw : List ℕ) :
    (m.forward (pad_sequences maxlen raw)).length = maxlen ∧
    ∀ p ∈ m.forward (pad_sequences maxlen raw), 0 < p ∧ p < 1 := by
  constructor
  · rw [forward_length, pad_sequences_length]
  · intro p hp
    exact forward_mem_unit m _ p hp

end TF
